import Mathlib

/-!
Verification of the semantic-memory browsing agent.

Shallow embedding of the JavaScript sources:
* `MemoryManager.cosineSimilarity` and `MemoryManager.search`
  (memory-manager module, and the identical copy inside the background
  service worker),
* the execution engine (`Agent.executePlan`) together with
  `DecisionModule.decideNextAction`, `getNextStepId`, `handleStepError`,
* the multi-provider `EmbeddingService.getEmbedding` fallback chain,
* the Gemini 3072-D chunk/embed/average-pool pipeline
  (`getGemini3072DEmbedding`, `getChunked3072DEmbedding`,
  `average3072DEmbeddings`).

Modelling conventions:
* JavaScript floating-point numbers are modelled as real numbers (exact
  arithmetic); `Math.sqrt` is `Real.sqrt`.
* JavaScript strings are modelled as `List Char` where the code computes
  with their contents (the chunker), and as Lean `String` where only
  equality of identifiers matters (step ids, provider names).
* Network calls and other external effects are abstracted as explicit
  function parameters (oracles) returning `Except`; a thrown JS exception
  is an `Except.error`.
* The unbounded `for` loop of `executePlan` is bounded by its own
  iteration budget (`maxExecutionSteps = 5`), so it is modelled by
  structural recursion on remaining attempts.
-/

/-! ## Cosine similarity (MemoryManager.cosineSimilarity) -/

/-- The dot-product accumulation loop `for (let i = 0; i < 3072; i++)`:
`dotProduct += vecA[i] * vecB[i]`.  Out-of-range reads do not occur because
the guard has already pinned both lengths to 3072. -/
noncomputable def dot3072 (vecA vecB : List ℝ) : ℝ :=
  ∑ i ∈ Finset.range 3072, vecA.getD i 0 * vecB.getD i 0

/-- Model of `cosineSimilarity(vecA, vecB)` from the memory manager:
returns 0 unless both vectors have length exactly 3072; returns 0 for a
zero magnitude; otherwise dot / (sqrt(normA) * sqrt(normB)). -/
noncomputable def cosineSimilarity (vecA vecB : List ℝ) : ℝ :=
  if vecA.length ≠ vecB.length ∨ vecA.length ≠ 3072 then 0
  else if Real.sqrt (dot3072 vecA vecA) * Real.sqrt (dot3072 vecB vecB) = 0 then 0
  else dot3072 vecA vecB / (Real.sqrt (dot3072 vecA vecA) * Real.sqrt (dot3072 vecB vecB))

lemma dot3072_self_nonneg (v : List ℝ) : 0 ≤ dot3072 v v := by
  refine Finset.sum_nonneg fun i _ => mul_self_nonneg _

lemma dot3072_self_pos (v : List ℝ) (hlen : v.length = 3072)
    (hx : ∃ x ∈ v, x ≠ 0) : 0 < dot3072 v v := by
  obtain ⟨x, hmem, hx0⟩ := hx
  obtain ⟨i, hi, hget⟩ := List.mem_iff_getElem.mp hmem
  refine Finset.sum_pos' (fun j _ => mul_self_nonneg _) ⟨i, ?_, ?_⟩
  · exact Finset.mem_range.mpr (hlen ▸ hi)
  · have : v.getD i 0 = x := by
      rw [List.getD_eq_getElem?_getD, List.getElem?_eq_getElem hi, Option.getD_some, hget]
    rw [this]
    exact mul_self_pos.mpr hx0

lemma getD_map_neg (l : List ℝ) (i : ℕ) (h : i < l.length) :
    (l.map (fun x => -x)).getD i 0 = -(l.getD i 0) := by
  have h' : i < (l.map (fun x => -x)).length := by simpa using h
  rw [List.getD_eq_getElem?_getD, List.getElem?_eq_getElem h',
    List.getD_eq_getElem?_getD, List.getElem?_eq_getElem h]
  simp

lemma dot3072_map_neg_right (v : List ℝ) (hlen : v.length = 3072) :
    dot3072 v (v.map (fun x => -x)) = -dot3072 v v := by
  unfold dot3072
  rw [← Finset.sum_neg_distrib]
  refine Finset.sum_congr rfl fun i hi => ?_
  have hil : i < v.length := hlen ▸ Finset.mem_range.mp hi
  rw [getD_map_neg v i hil]
  ring

lemma dot3072_map_neg_self (v : List ℝ) (hlen : v.length = 3072) :
    dot3072 (v.map (fun x => -x)) (v.map (fun x => -x)) = dot3072 v v := by
  unfold dot3072
  refine Finset.sum_congr rfl fun i hi => ?_
  have hil : i < v.length := hlen ▸ Finset.mem_range.mp hi
  rw [getD_map_neg v i hil]
  ring

/-- On a nonzero 3072-dimensional vector, the self-similarity is exactly 1
(in exact real arithmetic). -/
lemma cosineSimilarity_self (v : List ℝ) (hlen : v.length = 3072)
    (hx : ∃ x ∈ v, x ≠ 0) : cosineSimilarity v v = 1 := by
  have hS : 0 < dot3072 v v := dot3072_self_pos v hlen hx
  have hmag : Real.sqrt (dot3072 v v) * Real.sqrt (dot3072 v v) = dot3072 v v :=
    Real.mul_self_sqrt (dot3072_self_nonneg v)
  rw [cosineSimilarity, if_neg (by simp [hlen]), hmag, if_neg (ne_of_gt hS),
    div_self (ne_of_gt hS)]

/-- On a nonzero 3072-dimensional vector, the similarity with the pointwise
negation is exactly -1 (in exact real arithmetic). -/
lemma cosineSimilarity_neg (v : List ℝ) (hlen : v.length = 3072)
    (hx : ∃ x ∈ v, x ≠ 0) : cosineSimilarity v (v.map (fun x => -x)) = -1 := by
  have hS : 0 < dot3072 v v := dot3072_self_pos v hlen hx
  have hmag : Real.sqrt (dot3072 v v) * Real.sqrt (dot3072 v v) = dot3072 v v :=
    Real.mul_self_sqrt (dot3072_self_nonneg v)
  have hlen' : (v.map (fun x => -x)).length = 3072 := by simpa using hlen
  rw [cosineSimilarity, if_neg (by simp [hlen, hlen']),
    dot3072_map_neg_self v hlen, hmag, if_neg (ne_of_gt hS),
    dot3072_map_neg_right v hlen, neg_div, div_self (ne_of_gt hS)]

/-- C1 (counterexample): `cosineSimilarity` is NOT approximately 1 on every
nonzero equal-length pair "regardless of the vectors' dimension": on the
1-dimensional nonzero vector `[1]` the guard `vecA.length !== 3072` fires
and the function returns 0, not 1. -/
theorem c1_counterexample :
    cosineSimilarity [(1 : ℝ)] [(1 : ℝ)] = 0 ∧ (0 : ℝ) ≠ 1 := by
  constructor
  · rw [cosineSimilarity, if_pos (by norm_num)]
  · norm_num

/-- C1 (amended): for every nonzero vector `v` of dimension exactly 3072
(the only dimension the guard admits), `cosineSimilarity(v, v) = 1` and
`cosineSimilarity(v, -v) = -1` exactly, in exact real arithmetic; every
vector of any other dimension is sent to 0 by the length guard. -/
theorem c1_cosine_self_one_neg_self_neg_one (v : List ℝ)
    (hlen : v.length = 3072) (hx : ∃ x ∈ v, x ≠ 0) :
    cosineSimilarity v v = 1 ∧ cosineSimilarity v (v.map (fun x => -x)) = -1 :=
  ⟨cosineSimilarity_self v hlen hx, cosineSimilarity_neg v hlen hx⟩

/-- Witness for C1: the all-ones 3072-dimensional vector. -/
theorem c1_witness :
    cosineSimilarity (List.replicate 3072 (1 : ℝ)) (List.replicate 3072 (1 : ℝ)) = 1 ∧
    cosineSimilarity (List.replicate 3072 (1 : ℝ))
      ((List.replicate 3072 (1 : ℝ)).map (fun x => -x)) = -1 :=
  c1_cosine_self_one_neg_self_neg_one (List.replicate 3072 (1 : ℝ))
    (List.length_replicate 3072 1)
    ⟨1, List.mem_replicate.mpr ⟨by norm_num, rfl⟩, one_ne_zero⟩

/-! ## Memory search (MemoryManager.search) -/

/-- A stored memory record; only the fields `search` inspects are carried
(`metadata`, `tags`, `content` are copied through unchanged by the spread
`{ ...memory, score }` and play no role in ranking). -/
structure Memory where
  id : String
  type : String
  content : String

/-- An entry of the parallel `this.embeddings` array: `{ id, embedding }`. -/
structure EmbEntry where
  id : String
  embedding : List ℝ

/-- A search hit: the spread memory plus its `score`. -/
structure ScoredMemory where
  mem : Memory
  score : ℝ

/-- The guard `if (type && memory.type !== type) continue;` — a null `type` filters
nothing (`Option.none` models JS `null`/`undefined`). -/
def typeMatches (type? : Option String) (m : Memory) : Bool :=
  match type? with
  | some t => m.type == t
  | none => true

/-- The scan loop of `search`: type filter, embedding lookup by id,
3072-dimension guard, cosine score, `minScore` threshold; hits are pushed
in memory-collection order. -/
noncomputable def searchCandidates (queryEmbedding : List ℝ) (memories : List Memory)
    (embeddings : List EmbEntry) (type? : Option String) (minScore : ℝ) :
    List ScoredMemory :=
  memories.filterMap fun m =>
    if typeMatches type? m then
      match embeddings.find? (fun e => e.id == m.id) with
      | some e =>
        if e.embedding.length = 3072 then
          if minScore ≤ cosineSimilarity queryEmbedding e.embedding then
            some ⟨m, cosineSimilarity queryEmbedding e.embedding⟩
          else none
        else none
      | none => none
    else none

/-- The comparator `(a, b) => b.score - a.score`: `a` sorts no later than
`b` exactly when `b.score ≤ a.score`. -/
noncomputable def scoreLE (a b : ScoredMemory) : Bool :=
  decide (b.score ≤ a.score)

/-- The sort `results.sort((a, b) => b.score - a.score)`.  ES2019 `Array.prototype.sort`
is required to be stable, and a stable sort under this comparator is exactly
`mergeSort` with `scoreLE`. -/
noncomputable def searchRanked (queryEmbedding : List ℝ) (memories : List Memory)
    (embeddings : List EmbEntry) (type? : Option String) (minScore : ℝ) :
    List ScoredMemory :=
  (searchCandidates queryEmbedding memories embeddings type? minScore).mergeSort scoreLE

/-- Model of `MemoryManager.search`: the whole body runs inside `try ... catch
{ return []; }`; the only fallible operation is embedding the query, passed
here as an `Except` (the awaited `getEmbedding(query)`).  On success the
ranked list is truncated with `.slice(0, limit)`. -/
noncomputable def search (queryEmbedding : Except String (List ℝ))
    (memories : List Memory) (embeddings : List EmbEntry)
    (limit : ℕ) (type? : Option String) (minScore : ℝ) : List ScoredMemory :=
  match queryEmbedding with
  | .error _ => []
  | .ok q => (searchRanked q memories embeddings type? minScore).take limit

lemma scoreLE_trans (a b c : ScoredMemory) :
    scoreLE a b → scoreLE b c → scoreLE a c := by
  simp only [scoreLE, decide_eq_true_eq]
  exact fun h1 h2 => le_trans h2 h1

lemma scoreLE_total (a b : ScoredMemory) : scoreLE a b || scoreLE b a := by
  simp only [scoreLE, Bool.or_eq_true, decide_eq_true_eq]
  exact le_total _ _

/-- The ranked (pre-truncation) list keeps the ties of any fixed score in
their original candidate order: filtering both lists to one score value
yields the same list. -/
lemma searchRanked_filter_eq (q : List ℝ) (memories : List Memory)
    (embeddings : List EmbEntry) (type? : Option String) (minScore : ℝ) (s : ℝ) :
    (searchRanked q memories embeddings type? minScore).filter
        (fun r => decide (r.score = s)) =
      (searchCandidates q memories embeddings type? minScore).filter
        (fun r => decide (r.score = s)) := by
  rw [searchRanked]
  set cands := searchCandidates q memories embeddings type? minScore with hcands
  set p : ScoredMemory → Bool := fun r => decide (r.score = s) with hp
  have hmemc : ∀ r ∈ cands.filter p, r.score = s := by
    intro r hr
    have := List.of_mem_filter hr
    simpa [hp] using this
  have hpw : (cands.filter p).Pairwise (fun a b => scoreLE a b = true) := by
    refine List.pairwise_of_forall_mem_list ?_
    intro a ha b hb
    simp only [scoreLE, decide_eq_true_eq, hmemc a ha, hmemc b hb]
    exact le_refl s
  have hsub : List.Sublist (cands.filter p) (cands.mergeSort scoreLE) :=
    List.sublist_mergeSort scoreLE_trans scoreLE_total hpw (List.filter_sublist cands)
  have hsub' : List.Sublist (cands.filter p) ((cands.mergeSort scoreLE).filter p) := by
    have : List.Sublist ((cands.filter p).filter p) ((cands.mergeSort scoreLE).filter p) :=
      hsub.filter p
    simpa [List.filter_filter] using this
  have hperm : List.Perm ((cands.mergeSort scoreLE).filter p) (cands.filter p) :=
    (List.mergeSort_perm cands scoreLE).filter p
  exact ((hsub'.eq_of_length hperm.length_eq.symm).symm)

/-- C5: for every memory collection, stored-embedding table, query embedding
and options, the list returned by `search` is (1) sorted non-increasingly by
score, (2) stable — the hits of any fixed score appear in their original
candidate (insertion) order, as a sublist of the candidates filtered to that
score — and (3) truncated to at most `limit` items. -/
theorem c5_search_sorted_stable_truncated (q : List ℝ) (memories : List Memory)
    (embeddings : List EmbEntry) (limit : ℕ) (type? : Option String) (minScore : ℝ) :
    (search (.ok q) memories embeddings limit type? minScore).Pairwise
        (fun a b => b.score ≤ a.score) ∧
    (∀ s : ℝ, List.Sublist
      ((search (.ok q) memories embeddings limit type? minScore).filter
        (fun r => decide (r.score = s)))
      ((searchCandidates q memories embeddings type? minScore).filter
        (fun r => decide (r.score = s)))) ∧
    (search (.ok q) memories embeddings limit type? minScore).length ≤ limit := by
  refine ⟨?_, ?_, ?_⟩
  · have h1 : (searchRanked q memories embeddings type? minScore).Pairwise
        (fun a b => scoreLE a b = true) := by
      rw [searchRanked]
      exact List.sorted_mergeSort scoreLE_trans scoreLE_total _
    have h2 : (search (.ok q) memories embeddings limit type? minScore).Pairwise
        (fun a b => scoreLE a b = true) :=
      h1.sublist (List.take_sublist _ _)
    exact h2.imp (by simp only [scoreLE, decide_eq_true_eq]; exact fun h => h)
  · intro s
    have h3 : List.Sublist
        ((search (.ok q) memories embeddings limit type? minScore).filter
          (fun r => decide (r.score = s)))
        ((searchRanked q memories embeddings type? minScore).filter
          (fun r => decide (r.score = s))) :=
      (List.take_sublist _ _).filter _
    rw [searchRanked_filter_eq q memories embeddings type? minScore s] at h3
    exact h3
  · exact List.length_take_le _ _

/-- C6: every hit returned by `search` corresponds to a stored embedding of
dimension exactly 3072; a stored vector whose dimension differs (the
`memoryEmbedding.embedding.length !== 3072` guard) is skipped with
`continue` and can never appear in the results, while the scan completes
normally for the remaining memories. -/
theorem c6_dimension_mismatch_excluded (queryEmbedding : Except String (List ℝ))
    (memories : List Memory) (embeddings : List EmbEntry)
    (limit : ℕ) (type? : Option String) (minScore : ℝ) :
    (search queryEmbedding memories embeddings limit type? minScore).all
      (fun r => (embeddings.find? (fun e => e.id == r.mem.id)).any
        (fun e => e.embedding.length == 3072)) = true := by
  rw [List.all_eq_true]
  intro r hr
  match queryEmbedding with
  | .error e => simp [search] at hr
  | .ok q =>
    rw [search] at hr
    have hr1 : r ∈ searchRanked q memories embeddings type? minScore :=
      List.mem_of_mem_take hr
    rw [searchRanked, List.mem_mergeSort] at hr1
    rw [searchCandidates, List.mem_filterMap] at hr1
    obtain ⟨m, _, hf⟩ := hr1
    split at hf
    · split at hf
      next e heq =>
        split at hf
        next hlen =>
          split at hf
          · have hrm : r.mem = m := by
              cases hf
              rfl
            rw [hrm, heq]
            simp [hlen]
          · exact absurd hf (by simp)
        next => exact absurd hf (by simp)
      next => exact absurd hf (by simp)
    · exact absurd hf (by simp)

/-- C9: `search` cannot reject: its body is wrapped in a `try`/`catch` whose
handler returns `[]`, and the only fallible operation is embedding the query
itself, so an embedding failure resolves with the empty list — the same
value a query with no matches produces. -/
theorem c9_search_failure_resolves_empty (e : String) (memories : List Memory)
    (embeddings : List EmbEntry) (limit : ℕ) (type? : Option String) (minScore : ℝ) :
    search (.error e) memories embeddings limit type? minScore = [] := rfl

/-! ## Execution engine (Agent.executePlan, DecisionModule) -/

/-- A plan step: `{ id, type, description, parameters, tool, dependencies }`.
Only the fields the decision/execution logic reads are carried;
`dependencies` is `Option` because the JS property may be `undefined`
(a present-but-empty array is `some []`, which is truthy in JS and counts
as "all dependencies met"). -/
structure Step where
  id : String
  type : String
  dependencies : Option (List String)

/-- A plan as the executor sees it: the ordered step list (the remaining
fields `id`, `query`, `type`, ... are only copied into the final report). -/
structure Plan where
  steps : List Step

/-- The value returned by a step handler (a `ToolCallResult`):
`{ success, data?/results?, error? }`. -/
structure StepVal where
  success : Bool
  data : Option String
  err : Option String
deriving DecidableEq

/-- An entry pushed onto `executionResults`:
`{ stepId, success, data, error }`. -/
structure ExecResult where
  stepId : String
  success : Bool
  data : Option String
  err : Option String
deriving DecidableEq

/-- The action tag of a decision. -/
inductive DecisionAction where
  | execute (result : StepVal)
  | complete
  | error (msg : String)
  | wait
deriving DecidableEq

/-- A decision `{ action, nextStep }` (the `message`/`result`/`error`
payloads are folded into the action tag). -/
structure Decision where
  action : DecisionAction
  nextStep : Option String
deriving DecidableEq

/-- The check `step.dependencies.every(dep => executionResults.some(result =>
result.stepId === dep && result.success))`. -/
def depsMet (deps : List String) (executionResults : List ExecResult) : Bool :=
  deps.all fun dep => executionResults.any fun r => r.stepId == dep && r.success

/-- Model of `DecisionModule.getNextStepId`: index of the current step via
`findIndex` (which yields -1 when absent, so the absent case reads
`plan.steps[0]`), then the id of the following step or `null`. -/
def getNextStepId (plan : Plan) (currentStepId : String) : Option String :=
  match plan.steps.findIdx? (fun s => s.id == currentStepId) with
  | some i => (plan.steps[i + 1]?).map (·.id)
  | none => (plan.steps[0]?).map (·.id)

/-- Model of `DecisionModule.handleStepError`: retry the same step id when its type
is in the fixed retryable set, otherwise skip to the next step in sequence. -/
def handleStepError (plan : Plan) (stepId : String) : Option String :=
  match plan.steps.find? (fun s => s.id == stepId) with
  | some step =>
    if step.type == "search" || step.type == "navigation" then some stepId
    else getNextStepId plan stepId
  | none => getNextStepId plan stepId

/-- Model of `DecisionModule.executeStep`: dispatch on `step.type`; an unknown type
throws.  The four handlers delegate to the injected `ActionModule`
(network and tab effects), abstracted as the oracle `act`; a JS `throw`
from a handler is `Except.error`. -/
def executeStep (act : Step → Except String StepVal) (step : Step) :
    Except String StepVal :=
  if step.type == "search" || step.type == "navigation" ||
      step.type == "highlight" || step.type == "analysis" then act step
  else .error ("Unknown step type: " ++ step.type)

/-- Model of `DecisionModule.decideNextAction`: complete if the current step id is
not in the plan; wait (pointing at `step.dependencies[0]`) if some declared
dependency lacks a recorded success; otherwise run the step and return
`execute`/`error` with the follow-up cursor. -/
def decideNextAction (act : Step → Except String StepVal) (plan : Plan)
    (currentStep : String) (executionResults : List ExecResult) : Decision :=
  match plan.steps.find? (fun s => s.id == currentStep) with
  | none => ⟨.complete, none⟩
  | some step =>
    match step.dependencies with
    | some deps =>
      if depsMet deps executionResults then
        match executeStep act step with
        | .ok result => ⟨.execute result, getNextStepId plan currentStep⟩
        | .error e => ⟨.error e, handleStepError plan currentStep⟩
      else ⟨.wait, deps.head?⟩
    | none =>
      match executeStep act step with
      | .ok result => ⟨.execute result, getNextStepId plan currentStep⟩
      | .error e => ⟨.error e, handleStepError plan currentStep⟩

/-- How the `executePlan` loop was exited. -/
inductive ExitKind where
  | budget
  | cursorNull
  | stepNotFound
  | complete
deriving DecidableEq

/-- The observable outcome of `executePlan`: the `success` flag and
`executionResults.length` of `createExecutionResult`, plus the recorded
`executionResults` themselves, the number of loop iterations entered, and
the exit cause (both reconstructible from the JS trace). -/
structure ExecOutcome where
  success : Bool
  stepsExecuted : ℕ
  trace : List ExecResult
  iterations : ℕ
  exitKind : ExitKind
deriving DecidableEq

/-- The budget `this.maxExecutionSteps = 5`. -/
def maxExecutionSteps : ℕ := 5

/-- The `for (let attempt = 0; attempt < this.maxExecutionSteps; attempt++)`
loop of `Agent.executePlan`, by recursion on remaining attempts:
break on a null cursor, break when the cursor id is not in the plan
(both reach the trailing `createExecutionResult(..., false)`),
return success on a `complete` decision, record a result on
`execute`/`error` and move to `decision.nextStep`, and on `wait` sleep and
`continue` without touching the cursor. -/
def executePlanLoop (act : Step → Except String StepVal) (plan : Plan) :
    ℕ → Option String → List ExecResult → ℕ → ExecOutcome
  | 0, _, results, iters => ⟨false, results.length, results, iters, .budget⟩
  | _ + 1, none, results, iters => ⟨false, results.length, results, iters, .cursorNull⟩
  | fuel + 1, some cid, results, iters =>
    match plan.steps.find? (fun s => s.id == cid) with
    | none => ⟨false, results.length, results, iters, .stepNotFound⟩
    | some _ =>
      let decision := decideNextAction act plan cid results
      match decision.action with
      | .execute result =>
        executePlanLoop act plan fuel decision.nextStep
          (results ++ [⟨cid, result.success, result.data, result.err⟩]) (iters + 1)
      | .complete => ⟨true, results.length, results, iters + 1, .complete⟩
      | .error e =>
        executePlanLoop act plan fuel decision.nextStep
          (results ++ [⟨cid, false, none, some e⟩]) (iters + 1)
      | .wait => executePlanLoop act plan fuel (some cid) results (iters + 1)

/-- Model of `Agent.executePlan`: start at `plan.steps[0]?.id` with an empty result
list and the fixed iteration budget. -/
def executePlan (act : Step → Except String StepVal) (plan : Plan) : ExecOutcome :=
  executePlanLoop act plan maxExecutionSteps ((plan.steps[0]?).map (·.id)) [] 0

/-- The first dependency of `deps` that has no recorded success — the
"first unmet dependency" the specification says a WAIT decision references.
(Written from the spec's words, for comparison with the source, which
returns `step.dependencies[0]` instead.) -/
def firstUnmetDep (deps : List String) (results : List ExecResult) : Option String :=
  deps.find? fun dep => !(results.any fun r => r.stepId == dep && r.success)

lemma decideNextAction_of_unmet (act : Step → Except String StepVal) (plan : Plan)
    (cid : String) (results : List ExecResult) (step : Step) (deps : List String)
    (hfind : plan.steps.find? (fun s => s.id == cid) = some step)
    (hdeps : step.dependencies = some deps)
    (hmet : depsMet deps results = false) :
    decideNextAction act plan cid results = ⟨.wait, deps.head?⟩ := by
  simp [decideNextAction, hfind, hdeps, hmet]

lemma executePlanLoop_wait_step (act : Step → Except String StepVal) (plan : Plan)
    (cid : String) (results : List ExecResult) (step : Step) (deps : List String)
    (fuel iters : ℕ)
    (hfind : plan.steps.find? (fun s => s.id == cid) = some step)
    (hdeps : step.dependencies = some deps)
    (hmet : depsMet deps results = false) :
    executePlanLoop act plan (fuel + 1) (some cid) results iters =
      executePlanLoop act plan fuel (some cid) results (iters + 1) := by
  rw [executePlanLoop, hfind,
    decideNextAction_of_unmet act plan cid results step deps hfind hdeps hmet]

/-- C2 (counterexample): the WAIT decision does NOT reference the first
unmet dependency.  Step `"s"` declares dependencies `["a", "b"]`; `"a"`
already has a recorded success and `"b"` does not, so the first unmet
dependency is `"b"` — but the decision's `nextStep` is
`step.dependencies[0] = "a"`. -/
theorem c2_counterexample :
    (decideNextAction (fun _ => .error "unused")
        ⟨[⟨"a", "search", none⟩, ⟨"s", "search", some ["a", "b"]⟩]⟩
        "s" [⟨"a", true, none, none⟩]).action = DecisionAction.wait ∧
    (decideNextAction (fun _ => .error "unused")
        ⟨[⟨"a", "search", none⟩, ⟨"s", "search", some ["a", "b"]⟩]⟩
        "s" [⟨"a", true, none, none⟩]).nextStep = some "a" ∧
    firstUnmetDep ["a", "b"] [⟨"a", true, none, none⟩] = some "b" ∧
    ("a" : String) ≠ "b" :=
  ⟨rfl, rfl, rfl, by decide⟩

/-- C2 (amended): whenever some declared dependency of the current step
lacks a recorded success, the decision is WAIT — the step is never
dispatched — referencing the *first declared* dependency
(`step.dependencies[0]`, not necessarily an unmet one), and the executor
re-enters the loop with the cursor and the recorded results unchanged. -/
theorem c2_unmet_dependency_waits_without_advancing
    (act : Step → Except String StepVal) (plan : Plan) (cid : String)
    (results : List ExecResult) (step : Step) (deps : List String)
    (hfind : plan.steps.find? (fun s => s.id == cid) = some step)
    (hdeps : step.dependencies = some deps)
    (hmet : depsMet deps results = false) :
    decideNextAction act plan cid results = ⟨.wait, deps.head?⟩ ∧
    ∀ fuel iters : ℕ,
      executePlanLoop act plan (fuel + 1) (some cid) results iters =
        executePlanLoop act plan fuel (some cid) results (iters + 1) :=
  ⟨decideNextAction_of_unmet act plan cid results step deps hfind hdeps hmet,
   fun fuel iters =>
     executePlanLoop_wait_step act plan cid results step deps fuel iters hfind hdeps hmet⟩

/-- Witness for C2: a one-step plan whose step `"s"` depends on the
never-satisfied `"d"`. -/
theorem c2_witness :
    decideNextAction (fun _ => .error "x") ⟨[⟨"s", "search", some ["d"]⟩]⟩ "s" [] =
      ⟨DecisionAction.wait, some "d"⟩ ∧
    ∀ fuel iters : ℕ,
      executePlanLoop (fun _ => .error "x") ⟨[⟨"s", "search", some ["d"]⟩]⟩
          (fuel + 1) (some "s") [] iters =
        executePlanLoop (fun _ => .error "x") ⟨[⟨"s", "search", some ["d"]⟩]⟩
          fuel (some "s") [] (iters + 1) :=
  c2_unmet_dependency_waits_without_advancing (fun _ => .error "x")
    ⟨[⟨"s", "search", some ["d"]⟩]⟩ "s" [] ⟨"s", "search", some ["d"]⟩ ["d"]
    rfl rfl rfl

lemma decideNextAction_ne_complete (act : Step → Except String StepVal) (plan : Plan)
    (cid : String) (results : List ExecResult) (step : Step)
    (hfind : plan.steps.find? (fun s => s.id == cid) = some step) :
    (decideNextAction act plan cid results).action ≠ DecisionAction.complete := by
  simp only [decideNextAction, hfind]
  cases hd : step.dependencies with
  | none => cases he : executeStep act step <;> simp [he]
  | some deps =>
    cases hm : depsMet deps results with
    | false => simp [hm]
    | true => cases he : executeStep act step <;> simp [hm, he]

/-- The `complete` decision (the only source of `success = true`) is
unreachable: the loop itself breaks earlier whenever the cursor id is not
found in the plan, and `decideNextAction` runs the same lookup.  Hence
`executePlan` never reports `success = true`. -/
lemma executePlanLoop_success_false (act : Step → Except String StepVal) (plan : Plan) :
    ∀ (fuel : ℕ) (cursor : Option String) (results : List ExecResult) (iters : ℕ),
      (executePlanLoop act plan fuel cursor results iters).success = false
  | 0, _, _, _ => rfl
  | _ + 1, none, _, _ => rfl
  | fuel + 1, some cid, results, iters => by
    rw [executePlanLoop]
    cases hfind : plan.steps.find? (fun s => s.id == cid) with
    | none => rfl
    | some step =>
      have hne := decideNextAction_ne_complete act plan cid results step hfind
      dsimp only
      cases hact : (decideNextAction act plan cid results).action with
      | execute v => exact executePlanLoop_success_false act plan fuel _ _ _
      | complete => exact absurd hact hne
      | error e => exact executePlanLoop_success_false act plan fuel _ _ _
      | wait => exact executePlanLoop_success_false act plan fuel _ _ _

lemma depsMet_nil_results (deps : List String) (hne : deps ≠ []) :
    depsMet deps [] = false := by
  cases deps with
  | nil => exact absurd rfl hne
  | cons d ds => simp [depsMet]

lemma executePlanLoop_stuck (act : Step → Except String StepVal) (plan : Plan)
    (step0 : Step) (rest : List Step) (deps : List String)
    (hsteps : plan.steps = step0 :: rest)
    (hdeps : step0.dependencies = some deps) (hne : deps ≠ []) :
    ∀ (fuel iters : ℕ),
      executePlanLoop act plan fuel (some step0.id) [] iters =
        ⟨false, 0, [], iters + fuel, ExitKind.budget⟩
  | 0, iters => by simp [executePlanLoop]
  | fuel + 1, iters => by
    have hfind : plan.steps.find? (fun s => s.id == step0.id) = some step0 := by
      rw [hsteps]
      exact List.find?_cons_of_pos _ (by simp)
    rw [executePlanLoop_wait_step act plan step0.id [] step0 deps fuel iters hfind hdeps
        (depsMet_nil_results deps hne),
      executePlanLoop_stuck act plan step0 rest deps hsteps hdeps hne fuel (iters + 1)]
    congr 1
    omega

/-- C3: (1) with the default budget `maxExecutionSteps = 5`, a plan whose
first step declares a dependency that is never satisfiable (the result list
starts empty and a waiting loop never adds to it) halts after exactly 5
loop iterations with `success = false`, an empty result list, and a
budget-exhaustion exit; (2) for every action oracle and plan, if the
aggregate `success` flag is true then the loop exited by natural completion
(null cursor or cursor id not found), never by budget exhaustion — in fact
the `complete` decision is unreachable, so `success` is never true at all. -/
theorem c3_budget_exhaustion (act : Step → Except String StepVal) (plan : Plan)
    (step0 : Step) (rest : List Step) (deps : List String)
    (hsteps : plan.steps = step0 :: rest)
    (hdeps : step0.dependencies = some deps) (hne : deps ≠ []) :
    executePlan act plan = ⟨false, 0, [], maxExecutionSteps, ExitKind.budget⟩ ∧
    ∀ (act' : Step → Except String StepVal) (plan' : Plan),
      (executePlan act' plan').success = true →
      (executePlan act' plan').exitKind = ExitKind.cursorNull ∨
      (executePlan act' plan').exitKind = ExitKind.stepNotFound := by
  constructor
  · have hcur : (plan.steps[0]?).map (·.id) = some step0.id := by
      rw [hsteps]
      simp
    rw [executePlan, hcur,
      executePlanLoop_stuck act plan step0 rest deps hsteps hdeps hne maxExecutionSteps 0]
    norm_num
  · intro act' plan' hsucc
    exact absurd hsucc (by simp [executePlan, executePlanLoop_success_false])

/-- Witness for C3: the one-step plan `[{id := "s1", type := "search",
dependencies := ["d"]}]` with an oracle that always throws. -/
theorem c3_witness :
    executePlan (fun _ => .error "x") ⟨[⟨"s1", "search", some ["d"]⟩]⟩ =
      ⟨false, 0, [], maxExecutionSteps, ExitKind.budget⟩ :=
  (c3_budget_exhaustion (fun _ => .error "x") ⟨[⟨"s1", "search", some ["d"]⟩]⟩
    ⟨"s1", "search", some ["d"]⟩ [] ["d"] rfl rfl (by decide)).1

/-- The plan `A (no deps) → B (dep A) → C (dep B)` of the spec's scenario,
with `B` and `C` of the non-retryable type `analysis`. -/
def c4Plan : Plan :=
  ⟨[⟨"A", "search", none⟩, ⟨"B", "analysis", some ["A"]⟩, ⟨"C", "analysis", some ["B"]⟩]⟩

/-- The scenario oracle: `A` succeeds, `B`'s handler throws, `C` would
succeed if it were ever dispatched. -/
def c4Act : Step → Except String StepVal := fun s =>
  if s.id == "A" then .ok ⟨true, some "dataA", none⟩
  else if s.id == "B" then .error "boom"
  else .ok ⟨true, some "dataC", none⟩

/-- C4 (counterexample): in the plan `A → B → C` with `B`'s handler failing
and `B` non-retryable, execution does NOT record a result for `C`: the
recorded results are exactly the success for `A` and the failure for `B`,
because `C`'s declared dependency on `B` is only satisfied by a recorded
*success* and the failed `B` therefore blocks `C` in a wait loop until the
budget is exhausted. -/
theorem c4_counterexample :
    (executePlan c4Act c4Plan).trace =
      [⟨"A", true, some "dataA", none⟩, ⟨"B", false, none, some "boom"⟩] ∧
    (executePlan c4Act c4Plan).trace.all (fun r => !(r.stepId == "C")) = true := by
  constructor
  · rfl
  · rfl

/-- C4 (amended): on a handler failure, the decision keeps the same step id
when the step's type is in the fixed retryable set `{search, navigation}`
and otherwise advances to the next step in plan sequence; in the scenario
plan `A → B → C` with `B` failing and non-retryable, the cursor does
advance to `C` (`getNextStepId` from `B` is `C`), `FAILED` is recorded for
`B` — but `C` then waits forever on its unsatisfied dependency on `B`, so
the run ends by budget exhaustion with `success = false` and no recorded
result for `C`. -/
theorem c4_retry_or_skip_on_failure (plan : Plan) (stepId : String) (step : Step)
    (hfind : plan.steps.find? (fun s => s.id == stepId) = some step) :
    ((step.type = "search" ∨ step.type = "navigation") →
      handleStepError plan stepId = some stepId) ∧
    (step.type ≠ "search" → step.type ≠ "navigation" →
      handleStepError plan stepId = getNextStepId plan stepId) ∧
    getNextStepId c4Plan "B" = some "C" ∧
    executePlan c4Act c4Plan =
      ⟨false, 2, [⟨"A", true, some "dataA", none⟩, ⟨"B", false, none, some "boom"⟩],
        maxExecutionSteps, ExitKind.budget⟩ := by
  refine ⟨?_, ?_, rfl, rfl⟩
  · intro hty
    rcases hty with h | h <;> simp [handleStepError, hfind, h]
  · intro h1 h2
    have hb : (step.type == "search" || step.type == "navigation") = false := by
      simp [h1, h2]
    simp [handleStepError, hfind, hb]

/-- Witness for C4: the retry rule on a `search`-typed step and the skip
rule on an `analysis`-typed step, both inside the scenario plan. -/
theorem c4_witness :
    handleStepError c4Plan "A" = some "A" ∧
    handleStepError c4Plan "B" = getNextStepId c4Plan "B" :=
  ⟨(c4_retry_or_skip_on_failure c4Plan "A" ⟨"A", "search", none⟩ rfl).1 (Or.inl rfl),
   (c4_retry_or_skip_on_failure c4Plan "B" ⟨"B", "analysis", some ["A"]⟩ rfl).2.1
     (by decide) (by decide)⟩

/-! ## Embedding provider fallback (EmbeddingService.getEmbedding) -/

/-- A provider's `embed(text)`: a vector, or a thrown `ProviderError`. -/
abbrev EmbedFn := String → Except String (List ℝ)

/-- The `for (const [name, provider] of this.providers)` fallback loop:
walk the registry in insertion order, skip the entry that is the current
provider, try each other provider, and on the first success return its
vector together with the new sticky current name
(`this.currentProvider = provider`).  If the loop finishes, throw
`new Error('All embedding providers failed')`.  The registry `Map` is
modelled as an association list in insertion order with its (unique) keys;
the current provider is identified by its registry name. -/
def tryFallbacks : List (String × EmbedFn) → String → String →
    Except String (List ℝ × String)
  | [], _, _ => .error "All embedding providers failed"
  | p :: rest, current, text =>
    if p.1 == current then tryFallbacks rest current text
    else
      match p.2 text with
      | .ok v => .ok (v, p.1)
      | .error _ => tryFallbacks rest current text

/-- Model of `EmbeddingService.getEmbedding`: try `this.currentProvider.embed(text)`
inside a `try`; any throw (including a current name that is not in the
registry, whose property access would throw inside the same `try`) enters
the fallback loop over the full registry.  Returns the vector paired with
the sticky current-provider name after the call. -/
def getEmbedding (providers : List (String × EmbedFn)) (current : String)
    (text : String) : Except String (List ℝ × String) :=
  match providers.find? (fun p => p.1 == current) with
  | some p =>
    match p.2 text with
    | .ok v => .ok (v, current)
    | .error _ => tryFallbacks providers current text
  | none => tryFallbacks providers current text

lemma tryFallbacks_error_forall (text : String) :
    ∀ (l : List (String × EmbedFn)) (current : String) (msg : String),
      tryFallbacks l current text = .error msg →
      ∀ p ∈ l, p.1 = current ∨ ∃ err, p.2 text = .error err
  | [], _, _, _, _, h => absurd h (by simp)
  | p :: rest, current, msg, herr, q, hq => by
    rw [tryFallbacks] at herr
    rcases List.mem_cons.mp hq with rfl | hmem
    · by_cases hc : (q.1 == current) = true
      · exact Or.inl (by simpa using hc)
      · rw [if_neg (by simp_all)] at herr
        cases he : q.2 text with
        | ok v => rw [he] at herr; exact absurd herr (by simp)
        | error e => exact Or.inr ⟨e, rfl⟩
    · by_cases hc : (p.1 == current) = true
      · rw [if_pos hc] at herr
        exact tryFallbacks_error_forall text rest current msg herr q hmem
      · rw [if_neg hc] at herr
        cases he : p.2 text with
        | ok v => rw [he] at herr; exact absurd herr (by simp)
        | error e =>
          rw [he] at herr
          exact tryFallbacks_error_forall text rest current msg herr q hmem

/-- C7: (1) with the current provider `P1` failing and the fallback `P2`
succeeding with `v`, `getEmbedding` returns `v` and switches the sticky
current provider to `P2`; (2) a subsequent call with current provider `P2`
returns `P2`'s vector directly, whatever `P1` would do — `P1` is not
re-attempted; (3) the `All embedding providers failed` error is thrown only
when every registered provider has failed on the call. -/
theorem c7_provider_fallback_sticky (f1 f2 : EmbedFn) (text : String)
    (v : List ℝ) (e1 : String)
    (hf1 : f1 text = .error e1) (hf2 : f2 text = .ok v) :
    getEmbedding [("P1", f1), ("P2", f2)] "P1" text = .ok (v, "P2") ∧
    getEmbedding [("P1", f1), ("P2", f2)] "P2" text = .ok (v, "P2") ∧
    ∀ (providers : List (String × EmbedFn)) (current msg : String),
      (providers.map Prod.fst).Nodup →
      getEmbedding providers current text = .error msg →
      ∀ p ∈ providers, ∃ err, p.2 text = .error err := by
  refine ⟨?_, ?_, ?_⟩
  · simp [getEmbedding, tryFallbacks, hf1, hf2]
  · simp [getEmbedding, hf2]
  · intro providers current msg hnodup herr p hp
    rw [getEmbedding] at herr
    cases hfind : providers.find? (fun q => q.1 == current) with
    | none =>
      rw [hfind] at herr
      rcases tryFallbacks_error_forall text providers current msg herr p hp with hc | h
      · have := List.find?_eq_none.mp hfind p hp
        simp [hc] at this
      · exact h
    | some q =>
      rw [hfind] at herr
      dsimp only at herr
      cases hq : q.2 text with
      | ok w => rw [hq] at herr; exact absurd herr (by simp)
      | error eq' =>
        rw [hq] at herr
        rcases tryFallbacks_error_forall text providers current msg herr p hp with hc | h
        · have hqmem : q ∈ providers := List.mem_of_find?_eq_some hfind
          have hqcur : q.1 = current := by
            have := List.find?_some hfind
            simpa using this
          have : p = q :=
            List.inj_on_of_nodup_map hnodup hp hqmem (by rw [hc, hqcur])
          exact this ▸ ⟨eq', hq⟩
        · exact h

/-- Witness for C7: `P1` always throws, `P2` always returns `[1, 0, 0]`;
and a registry in which both providers throw yields the
all-providers-failed error with both having failed. -/
theorem c7_witness :
    getEmbedding [("P1", fun _ => .error "down"),
        ("P2", fun _ => .ok [(1 : ℝ), 0, 0])] "P1" "hello" =
      .ok ([(1 : ℝ), 0, 0], "P2") ∧
    getEmbedding [("P1", fun _ => .error "down"),
        ("P2", fun _ => .ok [(1 : ℝ), 0, 0])] "P2" "hello" =
      .ok ([(1 : ℝ), 0, 0], "P2") ∧
    ∀ p ∈ ([("P1", fun _ => .error "down"),
        ("P2", fun _ => .error "alsoDown")] : List (String × EmbedFn)),
      ∃ err, p.2 "hello" = .error err := by
  have h := c7_provider_fallback_sticky (fun _ => .error "down")
    (fun _ => .ok [(1 : ℝ), 0, 0]) "hello" [(1 : ℝ), 0, 0] "down" rfl rfl
  exact ⟨h.1, h.2.1,
    h.2.2 [("P1", fun _ => .error "down"), ("P2", fun _ => .error "alsoDown")]
      "P1" "All embedding providers failed" (by simp) rfl⟩

/-! ## Chunked 3072-D Gemini embedding
(getGemini3072DEmbedding / getChunked3072DEmbedding / average3072DEmbeddings) -/

/-- A JS string, modelled by its character sequence (its UTF-16 units; all
the texts reasoned about here are BMP-only, where the two coincide). -/
abbrev Str := List Char

/-- Byte size `new Blob([text]).size`: the UTF-8 byte length of the text. -/
def utf8Len (s : Str) : ℕ := (s.map Char.utf8Size).sum

/-- A character of the sentence-splitting class `[.!?]`. -/
def isPunct (c : Char) : Bool := c == '.' || c == '!' || c == '?'

/-- Sentence split `text.split(/[.!?]+/)`, splitting at every delimiter: the regex merges
delimiter runs while this splits at each one, which only introduces extra
empty pieces — removed by the `length > 20` filter below, after which the
two sentence lists agree. -/
def splitPunctAux : Str → Str → List Str
  | [], acc => [acc.reverse]
  | c :: cs, acc =>
    if isPunct c then acc.reverse :: splitPunctAux cs []
    else splitPunctAux cs (c :: acc)

/-- Trim `s.trim()`: strip leading and trailing whitespace. -/
def charTrim (s : Str) : Str :=
  ((s.dropWhile Char.isWhitespace).reverse.dropWhile Char.isWhitespace).reverse

/-- Sentence filter `text.split(/[.!?]+/).filter(s => s.trim().length > 20)` — note the
filter tests the trimmed length but keeps the untrimmed piece. -/
def jsSentences (text : Str) : List Str :=
  (splitPunctAux text []).filter fun s => 20 < (charTrim s).length

/-- The chunk-accumulation loop: `testChunk = currentChunk + sentence + '. '`;
start a new chunk only when `Blob([testChunk]).size > 30000` and
`currentChunk.length > 100`, pushing `currentChunk.trim()`. -/
def chunkGo : List Str → List Str → Str → List Str × Str
  | [], chunks, cur => (chunks, cur)
  | s :: rest, chunks, cur =>
    if 30000 < utf8Len (cur ++ s ++ ['.', ' ']) && 100 < cur.length then
      chunkGo rest (chunks ++ [charTrim cur]) (s ++ ['.', ' '])
    else chunkGo rest chunks (cur ++ s ++ ['.', ' '])

/-- The full chunk computation of `getChunked3072DEmbedding`: run the
accumulation loop over the filtered sentences, then flush the final chunk
when `currentChunk.trim().length > 50`. -/
def chunkText (text : Str) : List Str :=
  match chunkGo (jsSentences text) [] [] with
  | (chunks, cur) =>
    if 50 < (charTrim cur).length then chunks ++ [charTrim cur] else chunks

/-- The element-wise arithmetic mean over 3072 positions:
`averaged[i] = sum / embeddings.length`. -/
noncomputable def vecMean (vecs : List (List ℝ)) : List ℝ :=
  (List.range 3072).map fun i => (vecs.map fun v => v.getD i 0).sum / (vecs.length : ℝ)

/-- Model of `average3072DEmbeddings(embeddings)`: `null` for an empty list, the
single element unchanged for a one-element list, otherwise the element-wise
mean.  List entries are `Option` because a recursive `getGemini3072DEmbedding`
call can resolve `null`; in the two-or-more branch a `null` entry would make
the JS `sum += embedding[i]` throw, modelled as an error. -/
noncomputable def average3072DEmbeddings :
    List (Option (List ℝ)) → Except String (Option (List ℝ))
  | [] => .ok none
  | [e] => .ok e
  | e1 :: e2 :: rest =>
    if (e1 :: e2 :: rest).all Option.isSome then
      .ok (some (vecMean ((e1 :: e2 :: rest).filterMap id)))
    else .error "TypeError: null embedding"

/-- The outcome of a (possibly non-terminating) embedding call: `diverge`
is produced exactly when every recursion budget is exhausted, i.e. when the
JS mutual recursion never returns. -/
inductive GeminiResult where
  | diverge
  | thrown (e : String)
  | ok (v : Option (List ℝ))

/-- Outcome of embedding the chunks one after another (the sequential
`await` loop): the first divergence or throw aborts the collection. -/
inductive CollectResult where
  | diverge
  | thrown (e : String)
  | collected (vs : List (Option (List ℝ)))

/-- The loop `for (let i = 0; i < chunks.length; i++)` awaiting each chunk. -/
def collectEmbeds (embed1 : Str → GeminiResult) : List Str → CollectResult
  | [] => .collected []
  | c :: rest =>
    match embed1 c with
    | .diverge => .diverge
    | .thrown e => .thrown e
    | .ok v =>
      match collectEmbeds embed1 rest with
      | .collected vs => .collected (v :: vs)
      | r => r

/-- The body of `getChunked3072DEmbedding`, given the one-chunk embedder:
embed every chunk, then average-pool. -/
noncomputable def chunkedStep (embed1 : Str → GeminiResult) (chunks : List Str) :
    GeminiResult :=
  match collectEmbeds embed1 chunks with
  | .diverge => .diverge
  | .thrown e => .thrown e
  | .collected vs =>
    match average3072DEmbeddings vs with
    | .ok r => .ok r
    | .error e => .thrown e

/-- Model of `getGemini3072DEmbedding(text)`: throw without an API key; divert texts
over 35000 UTF-8 bytes to `getChunked3072DEmbedding`, which re-enters this
function on every chunk (`net` is the direct embedContent network call).
The JS recursion carries no decreasing measure, so it is modelled with
explicit fuel; `.diverge` for every fuel value means the JS call never
returns. -/
noncomputable def getGemini3072DEmbedding (net : Str → Except String (List ℝ))
    (hasKey : Bool) : ℕ → Str → GeminiResult
  | 0, _ => .diverge
  | fuel + 1, text =>
    if !hasKey then .thrown "API key missing"
    else if 35000 < utf8Len text then
      chunkedStep (getGemini3072DEmbedding net hasKey fuel) (chunkText text)
    else
      match net text with
      | .ok v => .ok (some v)
      | .error e => .thrown e

/-- Model of `getChunked3072DEmbedding(text)` as called with `fuel` remaining for
the per-chunk recursive `getGemini3072DEmbedding` calls. -/
noncomputable def getChunked3072DEmbedding (net : Str → Except String (List ℝ))
    (hasKey : Bool) (fuel : ℕ) (text : Str) : GeminiResult :=
  chunkedStep (getGemini3072DEmbedding net hasKey fuel) (chunkText text)

/-- Modelled from the spec: "the Chunker greedily accumulates sentences
into a chunk until adding the next sentence would exceed the threshold
*and* the current chunk already exceeds a minimum size" — a left fold over
the filtered sentences with the same thresholds, for comparison with the
source's loop. -/
def specChunkStep (st : List Str × Str) (s : Str) : List Str × Str :=
  if 30000 < utf8Len (st.2 ++ s ++ ['.', ' ']) ∧ 100 < st.2.length then
    (st.1 ++ [charTrim st.2], s ++ ['.', ' '])
  else (st.1, st.2 ++ s ++ ['.', ' '])

/-- Modelled from the spec: the greedy sentence-accumulation chunk list. -/
def specChunks (text : Str) : List Str :=
  match (jsSentences text).foldl specChunkStep ([], []) with
  | (chunks, cur) =>
    if 50 < (charTrim cur).length then chunks ++ [charTrim cur] else chunks

lemma dropWhile_eq_self_of_forall (p : Char → Bool) (l : Str)
    (h : ∀ c ∈ l, p c = false) : l.dropWhile p = l := by
  cases l with
  | nil => rfl
  | cons c cs => simp [List.dropWhile_cons, h c (by simp)]

lemma charTrim_of_no_ws (l : Str) (h : ∀ c ∈ l, c.isWhitespace = false) :
    charTrim l = l := by
  unfold charTrim
  rw [dropWhile_eq_self_of_forall _ _ h,
    dropWhile_eq_self_of_forall _ _ (fun c hc => h c (List.mem_reverse.mp hc)),
    List.reverse_reverse]

lemma charTrim_replicate_a (n : ℕ) :
    charTrim (List.replicate n 'a') = List.replicate n 'a' :=
  charTrim_of_no_ws _ fun c hc => by
    rw [List.eq_of_mem_replicate hc]; decide

lemma charTrim_replicate_a_dot (n : ℕ) :
    charTrim (List.replicate n 'a' ++ ['.']) = List.replicate n 'a' ++ ['.'] :=
  charTrim_of_no_ws _ fun c hc => by
    rcases List.mem_append.mp hc with h | h
    · rw [List.eq_of_mem_replicate h]; decide
    · simp only [List.mem_singleton] at h; rw [h]; decide

lemma charTrim_replicate_a_dot_space (n : ℕ) :
    charTrim (List.replicate n 'a' ++ ['.', ' ']) = List.replicate n 'a' ++ ['.'] := by
  have hws : (' ' : Char).isWhitespace = true := by decide
  have hdot : ('.' : Char).isWhitespace = false := by decide
  have ha : ('a' : Char).isWhitespace = false := by decide
  have h1 : List.dropWhile Char.isWhitespace (List.replicate n 'a' ++ ['.', ' ']) =
      List.replicate n 'a' ++ ['.', ' '] := by
    cases n with
    | zero => simp [List.dropWhile_cons, hdot]
    | succ m => rw [List.replicate_succ, List.cons_append, List.dropWhile_cons, ha]; simp
  unfold charTrim
  rw [h1, List.reverse_append, List.reverse_replicate]
  show ((' ' :: '.' :: List.replicate n 'a').dropWhile Char.isWhitespace).reverse = _
  rw [List.dropWhile_cons, hws]
  simp only [if_true]
  rw [List.dropWhile_cons, hdot]
  simp only [Bool.false_eq_true, if_false, List.reverse_cons, List.reverse_replicate]

lemma replicate_append_cons_a (n : ℕ) (acc : Str) :
    List.replicate n 'a' ++ 'a' :: acc = 'a' :: (List.replicate n 'a' ++ acc) := by
  induction n with
  | zero => rfl
  | succ m ih => simp [List.replicate_succ, ih]

lemma splitPunctAux_replicate_a (cs : Str) :
    ∀ (n : ℕ) (acc : Str),
      splitPunctAux (List.replicate n 'a' ++ cs) acc =
        splitPunctAux cs (List.replicate n 'a' ++ acc)
  | 0, acc => by simp
  | n + 1, acc => by
    rw [List.replicate_succ, List.cons_append, splitPunctAux,
      if_neg (by decide), splitPunctAux_replicate_a cs n ('a' :: acc)]
    congr 1
    rw [replicate_append_cons_a n acc, List.cons_append]

lemma splitPunctAux_dot (cs : Str) (acc : Str) :
    splitPunctAux ('.' :: cs) acc = acc.reverse :: splitPunctAux cs [] := by
  rw [splitPunctAux, if_pos (by decide)]

lemma utf8Len_append (s t : Str) : utf8Len (s ++ t) = utf8Len s + utf8Len t := by
  simp [utf8Len]

lemma utf8Len_replicate_a (n : ℕ) : utf8Len (List.replicate n 'a') = n := by
  simp [utf8Len, List.map_replicate, List.sum_replicate,
    show Char.utf8Size 'a' = 1 from rfl]

lemma utf8Len_replicate_bang (n : ℕ) : utf8Len (List.replicate n '!') = n := by
  simp [utf8Len, List.map_replicate, List.sum_replicate,
    show Char.utf8Size '!' = 1 from rfl]

lemma chunkGo_eq_foldl :
    ∀ (ss : List Str) (chunks : List Str) (cur : Str),
      chunkGo ss chunks cur = ss.foldl specChunkStep (chunks, cur)
  | [], _, _ => rfl
  | s :: rest, chunks, cur => by
    rw [chunkGo, List.foldl_cons]
    by_cases h : 30000 < utf8Len (cur ++ s ++ ['.', ' ']) ∧ 100 < cur.length
    · rw [if_pos (by simp only [Bool.and_eq_true, decide_eq_true_eq]; exact h),
        show specChunkStep (chunks, cur) s = (chunks ++ [charTrim cur], s ++ ['.', ' ']) by
          rw [specChunkStep, if_pos h]]
      exact chunkGo_eq_foldl rest _ _
    · rw [if_neg (by simp only [Bool.and_eq_true, decide_eq_true_eq]; exact h),
        show specChunkStep (chunks, cur) s = (chunks, cur ++ s ++ ['.', ' ']) by
          rw [specChunkStep, if_neg h]]
      exact chunkGo_eq_foldl rest _ _

/-- The source's chunk loop computes exactly the spec's greedy
sentence accumulation. -/
lemma chunkText_eq_specChunks (text : Str) : chunkText text = specChunks text := by
  rw [chunkText, specChunks, chunkGo_eq_foldl]

lemma vecMean_singleton (v : List ℝ) (h : v.length = 3072) : vecMean [v] = v := by
  apply List.ext_getElem
  · simp [vecMean, h]
  · intro i h1 h2
    simp only [vecMean, List.getElem_map, List.getElem_range, List.map_cons,
      List.map_nil, List.sum_cons, List.sum_nil, add_zero, List.length_cons,
      List.length_nil]
    rw [Nat.cast_one, div_one, List.getD_eq_getElem?_getD,
      List.getElem?_eq_getElem h2, Option.getD_some]

lemma average_map_some (vs : List (List ℝ)) (hne : vs ≠ [])
    (hdim : ∀ v ∈ vs, v.length = 3072) :
    average3072DEmbeddings (vs.map some) = .ok (some (vecMean vs)) := by
  match vs with
  | [] => exact absurd rfl hne
  | [v] =>
    show average3072DEmbeddings [some v] = _
    rw [average3072DEmbeddings, vecMean_singleton v (hdim v (by simp))]
  | v1 :: v2 :: rest =>
    show average3072DEmbeddings (some v1 :: some v2 :: rest.map some) = _
    rw [average3072DEmbeddings, if_pos (by simp)]
    have hfm : (some v1 :: some v2 :: rest.map some).filterMap id =
        v1 :: v2 :: rest := by
      simp [List.filterMap_cons, List.filterMap_map, Function.comp_def,
        List.filterMap_some]
    rw [hfm]

lemma getGemini_small (net : Str → Except String (List ℝ)) (fuel : ℕ) (c : Str)
    (v : List ℝ) (hsmall : utf8Len c ≤ 35000) (hv : net c = .ok v) :
    getGemini3072DEmbedding net true (fuel + 1) c = .ok (some v) := by
  rw [getGemini3072DEmbedding, if_neg (by simp), if_neg (by omega), hv]

lemma collectEmbeds_eval (net : Str → Except String (List ℝ)) (k : ℕ) :
    ∀ (chunks : List Str) (vs : List (List ℝ)),
      (∀ c ∈ chunks, utf8Len c ≤ 35000) →
      chunks.map net = vs.map Except.ok →
      collectEmbeds (getGemini3072DEmbedding net true (k + 1)) chunks =
        .collected (vs.map some)
  | [], [], _, _ => rfl
  | [], v :: vs, _, hmap => absurd hmap (by simp)
  | c :: cs, [], _, hmap => absurd hmap (by simp)
  | c :: cs, v :: vs, hsmall, hmap => by
    simp only [List.map_cons, List.cons.injEq] at hmap
    rw [List.map_cons, collectEmbeds,
      getGemini_small net k c v (hsmall c (by simp)) hmap.1,
      collectEmbeds_eval net k cs vs (fun x hx => hsmall x (by simp [hx])) hmap.2]

/-- Evaluation of the oversized path at recursion depth 2: when every chunk
is small enough to take the direct branch and embeds successfully, the call
resolves with the pooled mean. -/
lemma gemini_oversized_eval (net : Str → Except String (List ℝ)) (text : Str)
    (vs : List (List ℝ))
    (hbig : 35000 < utf8Len text)
    (hmap : (chunkText text).map net = vs.map Except.ok)
    (hsmall : ∀ c ∈ chunkText text, utf8Len c ≤ 35000)
    (hne : chunkText text ≠ [])
    (hdim : ∀ v ∈ vs, v.length = 3072) :
    getGemini3072DEmbedding net true 2 text = .ok (some (vecMean vs)) := by
  have hvs : vs ≠ [] := by
    intro h
    subst h
    simp only [List.map_nil, List.map_eq_nil_iff] at hmap
    exact hne hmap
  have hcol := collectEmbeds_eval net 0 (chunkText text) vs hsmall hmap
  norm_num at hcol
  rw [show (2 : ℕ) = 1 + 1 from rfl, getGemini3072DEmbedding, if_neg (by simp),
    if_pos hbig, chunkedStep, hcol]
  dsimp only
  rw [average_map_some vs hvs hdim]

/-- A single sentence of 40000 `'a'`s followed by its period: its own chunk
reproduces the whole text, so the chunked path re-enters itself forever. -/
def c10BadText : Str := List.replicate 40000 'a' ++ ['.']

lemma utf8Len_c10BadText : utf8Len c10BadText = 40001 := by
  rw [c10BadText, utf8Len_append, utf8Len_replicate_a,
    show utf8Len ['.'] = 1 from rfl]

lemma sentenceFilter_replicate_a (n : ℕ) (hn : 20 < n) :
    (fun s => decide (20 < (charTrim s).length)) (List.replicate n 'a') = true := by
  show decide (20 < (charTrim (List.replicate n 'a')).length) = true
  rw [charTrim_replicate_a, List.length_replicate, decide_eq_true_eq]
  exact hn

lemma sentenceFilter_nil :
    (fun s => decide (20 < (charTrim s).length)) ([] : Str) = false := rfl

lemma jsSentences_c10BadText : jsSentences c10BadText = [List.replicate 40000 'a'] := by
  rw [jsSentences, c10BadText, splitPunctAux_replicate_a ['.'] 40000 [],
    List.append_nil, splitPunctAux_dot, List.reverse_replicate,
    show splitPunctAux [] [] = [[]] from rfl,
    @List.filter_cons_of_pos _ (fun s => decide (20 < (charTrim s).length))
      (List.replicate 40000 'a') [[]]
      (sentenceFilter_replicate_a 40000 (by norm_num)),
    @List.filter_cons_of_neg _ (fun s => decide (20 < (charTrim s).length))
      ([] : Str) []
      (fun h => Bool.false_ne_true (sentenceFilter_nil ▸ h)),
    List.filter_nil]

lemma chunkText_c10BadText : chunkText c10BadText = [c10BadText] := by
  rw [chunkText, jsSentences_c10BadText, chunkGo, if_neg ?hc, chunkGo]
  case hc =>
    intro h
    rw [List.length_nil, show decide (100 < 0) = false from rfl,
      Bool.and_false] at h
    exact Bool.false_ne_true h
  dsimp only
  rw [List.nil_append, charTrim_replicate_a_dot_space,
    if_pos (by rw [List.length_append, List.length_replicate]; norm_num),
    List.nil_append, c10BadText]

/-- A deterministic direct-embedding oracle returning the zero vector. -/
noncomputable def constNet : Str → Except String (List ℝ) :=
  fun _ => .ok (List.replicate 3072 0)

lemma getGemini_c10BadText_diverge (net : Str → Except String (List ℝ)) :
    ∀ fuel : ℕ, getGemini3072DEmbedding net true fuel c10BadText = .diverge
  | 0 => rfl
  | fuel + 1 => by
    rw [getGemini3072DEmbedding, if_neg (by simp),
      if_pos (by rw [utf8Len_c10BadText]; norm_num), chunkText_c10BadText,
      chunkedStep, collectEmbeds, getGemini_c10BadText_diverge net fuel]

/-- C10 (counterexample): the chunk/embed recursion is NOT well-founded on
every oversized text.  `c10BadText` — one 40000-byte sentence — exceeds the
35000-byte threshold, its chunk list is `[c10BadText]` itself, and the
recursive per-chunk call therefore repeats the same call forever: no
recursion budget whatsoever lets the call resolve with a vector. -/
theorem c10_counterexample :
    35000 < utf8Len c10BadText ∧
    ¬ ∃ (fuel : ℕ) (v : List ℝ),
        getGemini3072DEmbedding constNet true fuel c10BadText =
          GeminiResult.ok (some v) := by
  constructor
  · rw [utf8Len_c10BadText]; norm_num
  · rintro ⟨fuel, v, h⟩
    rw [getGemini_c10BadText_diverge constNet fuel] at h
    exact GeminiResult.noConfusion h

/-- C10 (amended): the oversized-text path terminates — within recursion
depth 2 — and resolves with a 3072-dimensional vector (never `null`)
whenever the produced chunk list is nonempty, every chunk stays within the
35000-byte direct threshold, and the direct embedding succeeds with a
3072-dimensional vector on every chunk.  It is not total otherwise: a
single over-threshold sentence reproduces itself as its own chunk and the
recursion never returns, and an oversized text with no qualifying sentence
resolves `null`. -/
theorem c10_oversized_terminates (net : Str → Except String (List ℝ)) (text : Str)
    (vs : List (List ℝ))
    (hbig : 35000 < utf8Len text)
    (hmap : (chunkText text).map net = vs.map Except.ok)
    (hsmall : ∀ c ∈ chunkText text, utf8Len c ≤ 35000)
    (hne : chunkText text ≠ [])
    (hdim : ∀ v ∈ vs, v.length = 3072) :
    ∃ v : List ℝ, getGemini3072DEmbedding net true 2 text = .ok (some v) ∧
      v.length = 3072 :=
  ⟨vecMean vs, gemini_oversized_eval net text vs hbig hmap hsmall hne hdim,
    by simp [vecMean]⟩

/-- Text of 35001 exclamation marks: oversized, but with no sentence longer than 20
characters, so the chunk list is empty. -/
def c8BangText : Str := List.replicate 35001 '!'

lemma splitPunctAux_replicate_bang :
    ∀ n : ℕ, splitPunctAux (List.replicate n '!') [] = List.replicate (n + 1) []
  | 0 => rfl
  | n + 1 => by
    rw [List.replicate_succ, splitPunctAux, if_pos (by decide),
      splitPunctAux_replicate_bang n]
    rw [show List.replicate (n + 1 + 1) ([] : Str) =
      [] :: List.replicate (n + 1) [] from List.replicate_succ ..]
    rfl

lemma filter_sentence_replicate_nil (n : ℕ) :
    (List.replicate n ([] : Str)).filter
      (fun s => decide (20 < (charTrim s).length)) = [] := by
  induction n with
  | zero => rfl
  | succ m ih =>
    rw [List.replicate_succ,
      @List.filter_cons_of_neg _ (fun s => decide (20 < (charTrim s).length))
        ([] : Str) (List.replicate m [])
        (fun h => Bool.false_ne_true (sentenceFilter_nil ▸ h)),
      ih]

lemma chunkText_c8BangText : chunkText c8BangText = [] := by
  rw [chunkText, jsSentences, c8BangText, splitPunctAux_replicate_bang 35001,
    filter_sentence_replicate_nil, chunkGo]
  rfl

/-- C8 (counterexample): on an oversized text with no qualifying sentence
(35001 `'!'`s, 35001 UTF-8 bytes), the chunker produces zero chunks and
`average3072DEmbeddings([])` makes the call resolve `null`: no pooled
vector is returned, even though every per-chunk embedding (there are none)
"succeeds". -/
theorem c8_counterexample :
    35000 < utf8Len c8BangText ∧
    getGemini3072DEmbedding constNet true 1 c8BangText = .ok none := by
  have hlen : utf8Len c8BangText = 35001 := by
    rw [c8BangText, utf8Len_replicate_bang]
  constructor
  · rw [hlen]; norm_num
  · rw [show (1 : ℕ) = 0 + 1 from rfl, getGemini3072DEmbedding, if_neg (by simp),
      if_pos (by rw [hlen]; norm_num), chunkText_c8BangText, chunkedStep]
    rfl

/-- C8 (amended): the chunk list is exactly the spec's greedy sentence
accumulation (new chunk only when the test chunk would exceed 30000 UTF-8
bytes and the current chunk is over 100 characters), and — whenever the
chunk list is nonempty, each chunk is within the 35000-byte direct
threshold, and each chunk embeds successfully to a 3072-dimensional
vector — the call resolves with exactly the element-wise arithmetic mean
of the per-chunk vectors (the single vector itself for one chunk), a
deterministic function of the chunk embeddings; an oversized text with no
qualifying sentence instead resolves `null`. -/
theorem c8_greedy_chunks_mean_pooled (net : Str → Except String (List ℝ))
    (text : Str) (vs : List (List ℝ))
    (hbig : 35000 < utf8Len text)
    (hmap : (chunkText text).map net = vs.map Except.ok)
    (hsmall : ∀ c ∈ chunkText text, utf8Len c ≤ 35000)
    (hne : chunkText text ≠ [])
    (hdim : ∀ v ∈ vs, v.length = 3072) :
    (∀ t : Str, chunkText t = specChunks t) ∧
    getGemini3072DEmbedding net true 2 text = .ok (some (vecMean vs)) :=
  ⟨chunkText_eq_specChunks,
   gemini_oversized_eval net text vs hbig hmap hsmall hne hdim⟩

/-- A 25000-character sentence; two of them form the oversized witness
document whose chunking yields two chunks. -/
def docSentence : Str := List.replicate 25000 'a'

/-- The witness document: two 25000-byte sentences, 50002 UTF-8 bytes. -/
def c8DocText : Str := docSentence ++ '.' :: (docSentence ++ ['.'])

/-- Each of the two chunks the witness document splits into. -/
def docChunk : Str := docSentence ++ ['.']

lemma utf8Len_c8DocText : utf8Len c8DocText = 50002 := by
  rw [c8DocText, utf8Len_append, docSentence, utf8Len_replicate_a,
    show ('.' :: (List.replicate 25000 'a' ++ ['.'])) =
      ['.'] ++ (List.replicate 25000 'a' ++ ['.']) from rfl,
    utf8Len_append, utf8Len_append, utf8Len_replicate_a,
    show utf8Len ['.'] = 1 from rfl]

lemma jsSentences_c8DocText : jsSentences c8DocText = [docSentence, docSentence] := by
  rw [jsSentences, c8DocText, docSentence,
    splitPunctAux_replicate_a ('.' :: (List.replicate 25000 'a' ++ ['.'])) 25000 [],
    List.append_nil, splitPunctAux_dot, List.reverse_replicate,
    splitPunctAux_replicate_a ['.'] 25000 [], List.append_nil, splitPunctAux_dot,
    List.reverse_replicate, show splitPunctAux [] [] = [[]] from rfl,
    @List.filter_cons_of_pos _ (fun s => decide (20 < (charTrim s).length))
      (List.replicate 25000 'a') [List.replicate 25000 'a', []]
      (sentenceFilter_replicate_a 25000 (by norm_num)),
    @List.filter_cons_of_pos _ (fun s => decide (20 < (charTrim s).length))
      (List.replicate 25000 'a') [[]]
      (sentenceFilter_replicate_a 25000 (by norm_num)),
    @List.filter_cons_of_neg _ (fun s => decide (20 < (charTrim s).length))
      ([] : Str) []
      (fun h => Bool.false_ne_true (sentenceFilter_nil ▸ h)),
    List.filter_nil]

lemma utf8Len_docSentence : utf8Len docSentence = 25000 := by
  rw [show docSentence = List.replicate 25000 'a' from rfl, utf8Len_replicate_a]

lemma utf8Len_docChunk : utf8Len docChunk = 25001 := by
  rw [show docChunk = docSentence ++ ['.'] from rfl, utf8Len_append,
    utf8Len_docSentence, show utf8Len ['.'] = 1 from rfl]

lemma length_docSentence : docSentence.length = 25000 := by
  rw [show docSentence = List.replicate 25000 'a' from rfl, List.length_replicate]

lemma chunkText_c8DocText : chunkText c8DocText = [docChunk, docChunk] := by
  rw [chunkText, jsSentences_c8DocText, chunkGo, if_neg ?h1]
  case h1 =>
    intro h
    rw [List.length_nil, show decide (100 < 0) = false from rfl,
      Bool.and_false] at h
    exact Bool.false_ne_true h
  rw [List.nil_append, chunkGo, if_pos ?h2]
  case h2 =>
    rw [utf8Len_append, utf8Len_append, utf8Len_append, utf8Len_docSentence,
      show utf8Len ['.', ' '] = 2 from rfl, List.length_append,
      length_docSentence]
    rfl
  rw [chunkGo]
  dsimp only
  rw [show docSentence = List.replicate 25000 'a' from rfl,
    charTrim_replicate_a_dot_space,
    if_pos (by rw [List.length_append, List.length_replicate]; norm_num)]
  rfl

/-- The 3072-dimensional zero vector returned by `constNet`. -/
noncomputable def v3072 : List ℝ := List.replicate 3072 0

lemma c8Doc_hbig : 35000 < utf8Len c8DocText := by
  rw [utf8Len_c8DocText]; norm_num

lemma c8Doc_hmap :
    (chunkText c8DocText).map constNet = [v3072, v3072].map Except.ok := by
  rw [chunkText_c8DocText]; rfl

lemma c8Doc_hsmall : ∀ c ∈ chunkText c8DocText, utf8Len c ≤ 35000 := by
  intro c hc
  rw [chunkText_c8DocText] at hc
  rcases List.mem_cons.mp hc with rfl | hc
  · rw [utf8Len_docChunk]; norm_num
  · rcases List.mem_cons.mp hc with rfl | hc
    · rw [utf8Len_docChunk]; norm_num
    · exact absurd hc (List.not_mem_nil c)

lemma c8Doc_hne : chunkText c8DocText ≠ [] := by
  rw [chunkText_c8DocText]; simp

lemma c8Doc_hdim : ∀ v ∈ [v3072, v3072], v.length = 3072 := by
  intro v hv
  have hlen : v3072.length = 3072 := by
    rw [show v3072 = List.replicate 3072 (0 : ℝ) from rfl, List.length_replicate]
  rcases List.mem_cons.mp hv with rfl | hv
  · exact hlen
  · rcases List.mem_cons.mp hv with rfl | hv
    · exact hlen
    · exact absurd hv (List.not_mem_nil v)

/-- Witness for C8: the two-sentence 50002-byte document, chunked into two
25001-byte chunks, each embedded to the zero vector by `constNet`. -/
theorem c8_witness :
    chunkText c8DocText = specChunks c8DocText ∧
    getGemini3072DEmbedding constNet true 2 c8DocText =
      .ok (some (vecMean [v3072, v3072])) := by
  have h := c8_greedy_chunks_mean_pooled constNet c8DocText [v3072, v3072]
    c8Doc_hbig c8Doc_hmap c8Doc_hsmall c8Doc_hne c8Doc_hdim
  exact ⟨h.1 c8DocText, h.2⟩

/-- Witness for C10: the same oversized two-sentence document terminates at
recursion depth 2 with a 3072-dimensional vector. -/
theorem c10_witness :
    ∃ v : List ℝ, getGemini3072DEmbedding constNet true 2 c8DocText =
      .ok (some v) ∧ v.length = 3072 :=
  c10_oversized_terminates constNet c8DocText [v3072, v3072]
    c8Doc_hbig c8Doc_hmap c8Doc_hsmall c8Doc_hne c8Doc_hdim
